import Mathlib

/-!
Verification of the incremental recomputation engine of AutoTradingKit-Pro.

The repository wraps every technical indicator (RSI, MACD, CCI, KC, ...) in the
same engine pattern: a per-instance cache of derived arrays kept in sync with a
live candle table through four upstream events (reset, append, mutate-last,
historic-prepend), a pair of flags (first_gen, is_genering) guarding the
trailing-window handlers, and four merge callbacks.  This file gives a shallow
embedding of that engine, translated from
src/atklip/controls/momentum/rsi.py (the single-channel representative) and
src/atklip/controls/momentum/macd new.py (the multi-channel representative),
and proves or refutes the specified properties about it.

The indicator math itself (the rsi/macd formula pipelines) is an external
collaborator per the specification: the engine only consumes it as a pure
function from a close column to a derived column whose leading warm-up values
were dropped.  It is embedded here as an explicit kernel parameter
(`Kernel`, `rsiKernel`): the guard structure (absent result below the warm-up
window, tail alignment with the index column) is translated from the source,
while the numeric values of the output are abstracted as an arbitrary
pointwise core `k`.
-/

namespace ATK

/-- pandas `Series.tail n` / `DataFrame.tail n` for a non-negative `n`:
the last `n` rows (all rows when `n` exceeds the length). -/
def tailTake (n : Nat) (xs : List α) : List α := xs.drop (xs.length - n)

/-- pandas `tail` with a possibly negative argument: `tail k` for `k < 0`
drops the first `|k|` rows (used by `MACD.calculate`, where the row-count
argument is an int that can in principle be negative). -/
def pdTail (k : Int) (xs : List α) : List α :=
  if 0 ≤ k then xs.drop (xs.length - k.toNat) else xs.drop (-k).toNat

/-- pandas `df.head (-pre_len)` as used by `add_historic`: for `pre_len > 0`
this keeps all but the last `pre_len` rows; for `pre_len = 0` the Python
expression is `head 0`, the empty frame. -/
def headDropLastRows (pre_len : Nat) (xs : List α) : List α :=
  if pre_len = 0 then [] else xs.take (xs.length - pre_len)

/-- numpy / pandas "assign to position -1" realised as a pure update:
all but the last element kept, the last replaced. -/
def replaceLast (xs : List α) (v : α) : List α := xs.dropLast ++ [v]

/-- Engine-to-consumer notifications (the Qt signals
`sig_reset_all`, `sig_add_candle`, `sig_update_candle`, `sig_add_historic`). -/
inductive Notif where
  | reset
  | appended
  | updated
  | historic (count : Nat)
deriving DecidableEq, Repr

/-- The candle table as seen by the engine: the `index` column and the source
column (`close`) that the calculation consumes. -/
structure Candles where
  idx : List Int
  close : List Int
deriving DecidableEq, Repr

/-- `get_df n` of the candle objects: `if not n: return df; return df.tail(n)`.
Note Python's `not 0` is true, so `n = 0` returns the whole table. -/
def Candles.get_df (c : Candles) (n : Nat) : Candles :=
  if n = 0 then c else ⟨tailTake n c.idx, tailTake n c.close⟩

/-- The external calculation function as the engine consumes it: close column
in, optionally a derived column out (`none` models the absent result /
raised exception path for too-short input). -/
abbrev Kernel := List Int → Option (List Int)

/-- The rsi pipeline's interface behaviour (rsi.py lines 52-57 and the
dropna in `RSI.calculate`): `v_series close (length+1)` yields an absent
result when the input is shorter than `length + 1`; otherwise the pointwise
pipeline `k` produces one value per row and the `length` warm-up rows are
dropped (`dropna`), leaving the last `close.length - length` values. -/
def rsiKernel (length : Nat) (k : List Int → List Int) : Kernel := fun close =>
  if length + 1 ≤ close.length then some (tailTake (close.length - length) (k close))
  else none

/-- One computed result frame of the single-channel engine: the `index`
column paired with the `data` column (rsi.py lines 304-307). -/
structure CalcResult where
  index : List Int
  data : List Int
deriving DecidableEq, Repr

/-- `RSI.calculate` (rsi.py lines 280-307): run the rsi pipeline over the
source column (`dropna().round(6)` is part of the kernel abstraction), then
pair the result with `df["index"].tail (len y_data)`.  A `none` kernel result
models rsi returning `None`, on which `.dropna()` raises and the job dies. -/
def RSI.calculate (kernel : Kernel) (c : Candles) : Option CalcResult :=
  match kernel c.close with
  | none => none
  | some y => some ⟨tailTake y.length c.idx, y⟩

/-- The per-instance engine state of rsi.py: the generation flags, the
DataFrame mirror `df` and the numpy arrays `xdata`, `data` that form the
DerivedSeries. -/
structure RSIEng where
  first_gen : Bool
  is_genering : Bool
  is_histocric_load : Bool
  is_current_update : Bool
  df : CalcResult
  xdata : List Int
  data : List Int
deriving DecidableEq, Repr

/-- The engine state set up by `RSI.__init__` (rsi.py lines 144-153). -/
def RSIEng.init : RSIEng :=
  ⟨false, true, false, false, ⟨[], []⟩, [], []⟩

/-- `RSI.callback_first_gen` (rsi.py lines 362-370): the result becomes the
whole series, `is_genering` clears, `first_gen` is set, one reset signal. -/
def RSI.callback_first_gen (e : RSIEng) (r : CalcResult) : RSIEng × List Notif :=
  ({ e with df := r, xdata := r.index, data := r.data,
            is_genering := false, first_gen := true }, [Notif.reset])

/-- `RSI.callback_gen_historic_data` (rsi.py lines 372-383): the result is
concatenated in front of the held series, flags clear as in first gen,
`is_histocric_load` is set, and `sig_add_historic` carries `len _df`
(the result's row count). -/
def RSI.callback_gen_historic_data (e : RSIEng) (r : CalcResult) : RSIEng × List Notif :=
  ({ e with df := ⟨r.index ++ e.df.index, r.data ++ e.df.data⟩,
            xdata := r.index ++ e.xdata, data := r.data ++ e.data,
            is_genering := false, first_gen := true, is_histocric_load := true },
   [Notif.historic r.index.length])

/-- `RSI.callback_add` (rsi.py lines 385-399): only the final row of the
result is appended to `df` and to each array.  `iloc[-1]` on an empty result
column raises before any state is touched, modelled by the catch-all arm. -/
def RSI.callback_add (e : RSIEng) (r : CalcResult) : RSIEng × List Notif :=
  match r.index.getLast?, r.data.getLast? with
  | some li, some ld =>
      ({ e with df := ⟨e.df.index ++ [li], e.df.data ++ [ld]⟩,
                xdata := e.xdata ++ [li], data := e.data ++ [ld] },
       [Notif.appended])
  | _, _ => (e, [])

/-- `RSI.callback_update` (rsi.py lines 401-409): the final row of the result
overwrites the final row of `df` and of each array in place.  The aborts
mirror the raise points: extracting `iloc[-1]` from an empty result, then
`df.iloc[-1] = ...` on an empty frame, then the numpy assignments
`xdata[-1]`, `data[-1]` on empty arrays (each raising after the previous
assignments already happened). -/
def RSI.callback_update (e : RSIEng) (r : CalcResult) : RSIEng × List Notif :=
  match r.index.getLast?, r.data.getLast? with
  | some li, some ld =>
      if e.df.index = [] then (e, [])
      else
        let e1 := { e with df := ⟨replaceLast e.df.index li, replaceLast e.df.data ld⟩ }
        if e.xdata = [] then (e1, [])
        else
          let e2 := { e1 with xdata := replaceLast e.xdata li }
          if e.data = [] then (e2, [])
          else ({ e2 with data := replaceLast e.data ld }, [Notif.updated])
  | _, _ => (e, [])

/-- Upstream candle events as the engine handlers receive them.
`echoAppend` is `sig_add_candle` firing again for the tip row that is already
present (no candle mutation), the scenario of the duplicate-tip property. -/
inductive REvent where
  | reset
  | append (i : Int) (cl : Int)
  | echoAppend
  | mutateLast (cl : Int)
  | historic (rows : List (Int × Int))
deriving DecidableEq, Repr

/-- Effect of each upstream event on the candle table itself: append adds a
row at the end, mutate-last rewrites the close of the final row, historic
prepends a block of older rows. -/
def applyCandleEvent (c : Candles) : REvent → Candles
  | .reset => c
  | .append i cl => ⟨c.idx ++ [i], c.close ++ [cl]⟩
  | .echoAppend => c
  | .mutateLast cl => if c.close = [] then c else ⟨c.idx, replaceLast c.close cl⟩
  | .historic rows => ⟨rows.map Prod.fst ++ c.idx, rows.map Prod.snd ++ c.close⟩

/-- The slice of the candle table each handler submits to `calculate`:
the full table for a regeneration (`fisrt_gen_data`), `get_df (length*5)`
for the trailing-window handlers (`add`, `update`), and
`head (-len self.df)` for `add_historic`. -/
def RSI.eventSlice (length : Nat) (c : Candles) (pre_len : Nat) : REvent → Candles
  | .reset => c.get_df 0
  | .append _ _ => c.get_df (length * 5)
  | .echoAppend => c.get_df (length * 5)
  | .mutateLast _ => c.get_df (length * 5)
  | .historic _ => ⟨headDropLastRows pre_len c.idx, headDropLastRows pre_len c.close⟩

/-- A bound engine instance: the candle source it references plus its own
engine state. -/
structure RSISys where
  candles : Candles
  eng : RSIEng
deriving DecidableEq, Repr

/-- One upstream event processed to completion (handler, job, merge callback
in sequence).  Translated arm by arm from rsi.py:
`fisrt_gen_data` (309-318) clears `df`, raises `is_genering` and submits over
the full table; `add_historic` (321-332) raises `is_genering`, clears
`is_histocric_load` and submits over the head slice; `add` (334-346) and
`update` (348-360) clear `is_current_update` and submit over the trailing
window only when `first_gen and not is_genering`, otherwise dropping the
event.  A `none` calculation models the job raising, after which the
callback's `future.result()` re-raises and no merge happens. -/
def RSIstep (length : Nat) (kernel : Kernel) (s : RSISys) (ev : REvent) :
    RSISys × List Notif :=
  let c' := applyCandleEvent s.candles ev
  let e := s.eng
  let slice := RSI.eventSlice length c' e.df.index.length ev
  match ev with
  | .reset =>
      let e1 := { e with is_current_update := false, is_genering := true,
                         df := (⟨[], []⟩ : CalcResult) }
      match RSI.calculate kernel slice with
      | none => (⟨c', e1⟩, [])
      | some r =>
          let p := RSI.callback_first_gen e1 r
          (⟨c', p.1⟩, p.2)
  | .historic _ =>
      let e1 := { e with is_genering := true, is_histocric_load := false }
      match RSI.calculate kernel slice with
      | none => (⟨c', e1⟩, [])
      | some r =>
          let p := RSI.callback_gen_historic_data e1 r
          (⟨c', p.1⟩, p.2)
  | .append _ _ =>
      let e1 := { e with is_current_update := false }
      if e.first_gen && !e.is_genering then
        match RSI.calculate kernel slice with
        | none => (⟨c', e1⟩, [])
        | some r =>
            let p := RSI.callback_add e1 r
            (⟨c', p.1⟩, p.2)
      else (⟨c', e1⟩, [])
  | .echoAppend =>
      let e1 := { e with is_current_update := false }
      if e.first_gen && !e.is_genering then
        match RSI.calculate kernel slice with
        | none => (⟨c', e1⟩, [])
        | some r =>
            let p := RSI.callback_add e1 r
            (⟨c', p.1⟩, p.2)
      else (⟨c', e1⟩, [])
  | .mutateLast _ =>
      let e1 := { e with is_current_update := false }
      if e.first_gen && !e.is_genering then
        match RSI.calculate kernel slice with
        | none => (⟨c', e1⟩, [])
        | some r =>
            let p := RSI.callback_update e1 r
            (⟨c', p.1⟩, p.2)
      else (⟨c', e1⟩, [])

/-- Run a whole event trace, each event processed to completion. -/
def runRSI (length : Nat) (kernel : Kernel) (s : RSISys) : List REvent → RSISys
  | [] => s
  | ev :: rest => runRSI length kernel (RSIstep length kernel s ev).1 rest

/-! ### Job-flight model

The single-flight property is about submissions and completions as separate
points in time, so the handlers are re-read at that granularity: each handler
either enqueues a job on the shared executor or drops the event, and a
completion delivers exactly one callback for the oldest outstanding job
(the executor contract of spec section 4.3).  Only the flag effects matter
here; the data effects are covered by the sequential model above. -/

/-- The four job kinds an engine instance can have outstanding. -/
inductive JobKind where
  | firstGen
  | historicJob
  | addTip
  | updateTip
deriving DecidableEq, Repr

/-- Flag state plus the queue of outstanding jobs of one instance. -/
structure FlightSt where
  first_gen : Bool
  is_genering : Bool
  is_histocric_load : Bool
  is_current_update : Bool
  inFlight : List JobKind
deriving DecidableEq, Repr

/-- Flags at construction time (rsi.py lines 144-147), nothing in flight. -/
def FlightSt.init : FlightSt := ⟨false, true, false, false, []⟩

/-- Submission-level actions: the four upstream events, plus delivery of the
completion callback of the oldest outstanding job. -/
inductive FAction where
  | reset
  | append
  | update
  | historicEv
  | complete
deriving DecidableEq, Repr

/-- Submission effects of the handlers (rsi.py: `fisrt_gen_data` raises
`is_genering` and submits; `add_historic` raises `is_genering` and submits;
`add`/`update` submit only when `first_gen and not is_genering` and notably
do not raise `is_genering` themselves), and completion effects of the
callbacks on the flags. -/
def stepFlight (s : FlightSt) : FAction → FlightSt
  | .reset =>
      { s with is_current_update := false, is_genering := true,
               inFlight := s.inFlight ++ [JobKind.firstGen] }
  | .historicEv =>
      { s with is_genering := true, is_histocric_load := false,
               inFlight := s.inFlight ++ [JobKind.historicJob] }
  | .append =>
      if s.first_gen && !s.is_genering then
        { s with is_current_update := false,
                 inFlight := s.inFlight ++ [JobKind.addTip] }
      else { s with is_current_update := false }
  | .update =>
      if s.first_gen && !s.is_genering then
        { s with is_current_update := false,
                 inFlight := s.inFlight ++ [JobKind.updateTip] }
      else { s with is_current_update := false }
  | .complete =>
      match s.inFlight with
      | [] => s
      | j :: rest =>
          let s1 := { s with inFlight := rest }
          match j with
          | .firstGen => { s1 with is_genering := false, first_gen := true }
          | .historicJob =>
              { s1 with is_genering := false, first_gen := true,
                        is_histocric_load := true }
          | .addTip => s1
          | .updateTip => s1

/-- Run a sequence of submission-level actions. -/
def runFlight (s : FlightSt) : List FAction → FlightSt
  | [] => s
  | a :: rest => runFlight (stepFlight s a) rest

/-! ### Query surface -/

/-- Python slice-bound normalisation for a sequence of length `n`:
negative indices count from the end and both directions clamp into `[0, n]`. -/
def pyBound (n : Nat) (i : Int) : Nat :=
  if i < 0 then (i + n).toNat else min i.toNat n

/-- Python's `xs[a:b]` (step 1). -/
def pySlice (xs : List α) (a b : Int) : List α :=
  (xs.take (pyBound xs.length b)).drop (pyBound xs.length a)

/-- Python's `xs[a:]`. -/
def pySliceFrom (xs : List α) (a : Int) : List α :=
  xs.drop (pyBound xs.length a)

/-- Python's `xs[:b]`. -/
def pySliceTo (xs : List α) (b : Int) : List α :=
  xs.take (pyBound xs.length b)

/-- `RSI.get_data` (rsi.py lines 233-248): empty series short-circuits to a
pair of empty lists, `(0,0)` returns everything, and the remaining cases are
plain Python slices of both arrays. -/
def RSI.get_data (xdata data : List Int) (start stop : Int) : List Int × List Int :=
  if xdata.length = 0 then ([], [])
  else if start = 0 ∧ stop = 0 then (xdata, data)
  else if start = 0 ∧ stop ≠ 0 then (pySliceTo xdata stop, pySliceTo data stop)
  else if start ≠ 0 ∧ stop = 0 then (pySliceFrom xdata start, pySliceFrom data start)
  else (pySlice xdata start stop, pySlice data start stop)

/-! ### Multi-channel engine (MACD)

Translated from src/atklip/controls/momentum/macd new.py.  The macd pipeline
is again the external calculation function: three pointwise cores `km`, `kh`,
`ks` stand for the dropna'd macd / histogram / signal columns, and the
`v_series` guard of `macd` (which swaps `fast` and `slow` when needed and
requires `slow + signal - 1` rows) is translated explicitly. -/

/-- One computed result frame of the MACD engine (macd new.py 347-352). -/
structure MacdResult where
  index : List Int
  macd : List Int
  histogram : List Int
  signalma : List Int
deriving DecidableEq, Repr

/-- `MACD.calculate` (macd new.py lines 320-352): run the macd pipeline
(absent when the input is shorter than `max fast slow + signal - 1`, the
`v_series` guard after the fast/slow swap), extract the three dropna'd
columns, and truncate everything to
`min (min |histogram| |macd|) (min |signalma| (n - slow_period))` rows with
pandas `tail`; the row count is an int, so the possibly-negative pandas
`tail` is used. -/
def MACD.calculate (fast slow signal : Nat)
    (km kh ks : List Int → List Int) (c : Candles) : Option MacdResult :=
  if max fast slow + signal ≤ c.close.length + 1 then
    let m := km c.close
    let h := kh c.close
    let sg := ks c.close
    let len : Int :=
      min (min (h.length : Int) (m.length : Int))
          (min (sg.length : Int) ((c.close.length : Int) - (slow : Int)))
    some ⟨pdTail len c.idx, pdTail len m, pdTail len h, pdTail len sg⟩
  else none

/-- `MACD.add_update_calculate` (macd new.py lines 421-428): the trailing
window recompute used by `add`/`update`: `paire_data` of the raw pipeline
output.  `none` models the absent-pipeline path (macd returns `None`,
`paire_data`'s except branch yields empty series, and the subsequent
`iloc[-1]` raises). -/
def MACD.add_update_calculate (fast slow signal : Nat)
    (km kh ks : List Int → List Int) (c : Candles) :
    Option (List Int × List Int × List Int) :=
  if max fast slow + signal ≤ c.close.length + 1 then
    some (km c.close, kh c.close, ks c.close)
  else none

/-- The per-instance MACD engine state (macd new.py lines 178-187). -/
structure MACDEng where
  first_gen : Bool
  is_genering : Bool
  is_histocric_load : Bool
  is_current_update : Bool
  df : MacdResult
  xdata : List Int
  macd_data : List Int
  histogram : List Int
  signalma : List Int
deriving DecidableEq, Repr

/-- `MACD.callback_first_gen` (macd new.py lines 355-366). -/
def MACD.callback_first_gen (e : MACDEng) (r : MacdResult) : MACDEng × List Notif :=
  ({ e with df := r, xdata := r.index, macd_data := r.macd,
            histogram := r.histogram, signalma := r.signalma,
            is_genering := false, first_gen := true }, [Notif.reset])

/-- `MACD.callback_gen_historic_data` (macd new.py lines 385-400). -/
def MACD.callback_gen_historic_data (e : MACDEng) (r : MacdResult) : MACDEng × List Notif :=
  ({ e with df := ⟨r.index ++ e.df.index, r.macd ++ e.df.macd,
                   r.histogram ++ e.df.histogram, r.signalma ++ e.df.signalma⟩,
            xdata := r.index ++ e.xdata, macd_data := r.macd ++ e.macd_data,
            histogram := r.histogram ++ e.histogram, signalma := r.signalma ++ e.signalma,
            is_genering := false, first_gen := true, is_histocric_load := true },
   [Notif.historic r.index.length])

/-- The merge part of `MACD.add` (macd new.py lines 436-452): one new row
made of the new candle's index and the last value of each recomputed
channel.  Extracting `iloc[-1]` from an empty channel raises before any
state is touched. -/
def MACD.mergeAdd (e : MACDEng) (i : Int)
    (m h sg : List Int) : MACDEng × List Notif :=
  match m.getLast?, h.getLast?, sg.getLast? with
  | some vm, some vh, some vs =>
      ({ e with df := ⟨e.df.index ++ [i], e.df.macd ++ [vm],
                       e.df.histogram ++ [vh], e.df.signalma ++ [vs]⟩,
                xdata := e.xdata ++ [i], macd_data := e.macd_data ++ [vm],
                histogram := e.histogram ++ [vh], signalma := e.signalma ++ [vs] },
       [Notif.appended])
  | _, _, _ => (e, [])

/-- The merge part of `MACD.update` (macd new.py lines 461-467): the last row
of `df` and of each array is overwritten in place.  Abort points follow the
raise order: empty channel `iloc[-1]`, then `df.iloc[-1] = ...` on an empty
frame, then the numpy assignments array by array. -/
def MACD.mergeUpdate (e : MACDEng) (i : Int)
    (m h sg : List Int) : MACDEng × List Notif :=
  match m.getLast?, h.getLast?, sg.getLast? with
  | some vm, some vh, some vs =>
      if e.df.index = [] then (e, [])
      else
        let e1 := { e with df := ⟨replaceLast e.df.index i, replaceLast e.df.macd vm,
                                  replaceLast e.df.histogram vh,
                                  replaceLast e.df.signalma vs⟩ }
        if e.xdata = [] then (e1, [])
        else
          let e2 := { e1 with xdata := replaceLast e.xdata i }
          if e.macd_data = [] then (e2, [])
          else
            let e3 := { e2 with macd_data := replaceLast e.macd_data vm }
            if e.histogram = [] then (e3, [])
            else
              let e4 := { e3 with histogram := replaceLast e.histogram vh }
              if e.signalma = [] then (e4, [])
              else ({ e4 with signalma := replaceLast e.signalma vs }, [Notif.updated])
  | _, _, _ => (e, [])

/-- A bound MACD instance. -/
structure MACDSys where
  candles : Candles
  eng : MACDEng
deriving DecidableEq, Repr

/-- One upstream event processed to completion on the MACD engine, handler by
handler from macd new.py: `fisrt_gen_data` (368-382), `add_historic`
(402-418), `add` (430-453), `update` (455-468).  `add`/`update` recompute
over `get_df (slow_period*5)` and are guarded by
`first_gen and not is_genering`. -/
def MACDstep (fast slow signal : Nat) (km kh ks : List Int → List Int)
    (s : MACDSys) (ev : REvent) : MACDSys × List Notif :=
  let c' := applyCandleEvent s.candles ev
  let e := s.eng
  match ev with
  | .reset =>
      let e1 := { e with is_current_update := false, is_genering := true,
                         df := (⟨[], [], [], []⟩ : MacdResult) }
      match MACD.calculate fast slow signal km kh ks (c'.get_df 0) with
      | none => (⟨c', e1⟩, [])
      | some r =>
          let p := MACD.callback_first_gen e1 r
          (⟨c', p.1⟩, p.2)
  | .historic _ =>
      let e1 := { e with is_genering := true, is_histocric_load := false }
      let slice : Candles :=
        ⟨headDropLastRows e.df.index.length c'.idx,
         headDropLastRows e.df.index.length c'.close⟩
      match MACD.calculate fast slow signal km kh ks slice with
      | none => (⟨c', e1⟩, [])
      | some r =>
          let p := MACD.callback_gen_historic_data e1 r
          (⟨c', p.1⟩, p.2)
  | .append i _ =>
      let e1 := { e with is_current_update := false }
      if e.first_gen && !e.is_genering then
        match MACD.add_update_calculate fast slow signal km kh ks
            (c'.get_df (slow * 5)) with
        | none => (⟨c', e1⟩, [])
        | some t =>
            let p := MACD.mergeAdd e1 i t.1 t.2.1 t.2.2
            (⟨c', p.1⟩, p.2)
      else (⟨c', e1⟩, [])
  | .echoAppend =>
      let e1 := { e with is_current_update := false }
      if e.first_gen && !e.is_genering then
        match MACD.add_update_calculate fast slow signal km kh ks
            (c'.get_df (slow * 5)) with
        | none => (⟨c', e1⟩, [])
        | some t =>
            match c'.idx.getLast? with
            | none => (⟨c', e1⟩, [])
            | some i =>
                let p := MACD.mergeAdd e1 i t.1 t.2.1 t.2.2
                (⟨c', p.1⟩, p.2)
      else (⟨c', e1⟩, [])
  | .mutateLast _ =>
      let e1 := { e with is_current_update := false }
      if e.first_gen && !e.is_genering then
        match MACD.add_update_calculate fast slow signal km kh ks
            (c'.get_df (slow * 5)) with
        | none => (⟨c', e1⟩, [])
        | some t =>
            match c'.idx.getLast? with
            | none => (⟨c', e1⟩, [])
            | some i =>
                let p := MACD.mergeUpdate e1 i t.1 t.2.1 t.2.2
                (⟨c', p.1⟩, p.2)
      else (⟨c', e1⟩, [])

/-! ### Helper lemmas -/

theorem tailTake_suffix (n : Nat) (xs : List α) : tailTake n xs <:+ xs :=
  List.drop_suffix _ _

theorem tailTake_length (n : Nat) (xs : List α) :
    (tailTake n xs).length = min n xs.length := by
  rw [tailTake, List.length_drop]
  omega

theorem tailTake_ne_nil (n : Nat) (xs : List α) (hn : 1 ≤ n) (hxs : xs ≠ []) :
    tailTake n xs ≠ [] := by
  have hlen : 0 < xs.length := List.length_pos.mpr hxs
  intro hc
  have := tailTake_length n xs
  rw [hc] at this
  simp at this
  omega

theorem suffix_getLast? {xs ys : List α} (h : xs <:+ ys) (hne : xs ≠ []) :
    ys.getLast? = xs.getLast? := by
  obtain ⟨w, rfl⟩ := h
  exact List.getLast?_append_of_ne_nil w hne

theorem replaceLast_length {xs : List α} (v : α) (h : xs ≠ []) :
    (replaceLast xs v).length = xs.length := by
  have hlen : 0 < xs.length := List.length_pos.mpr h
  rw [replaceLast, List.length_append, List.length_dropLast]
  simp
  omega

theorem replaceLast_self {xs : List α} {a : α} (h : xs.getLast? = some a) :
    replaceLast xs a = xs :=
  List.dropLast_append_getLast? a (by rw [h]; rfl)

/-! ### Claim C1: single flight per instance -/

/-- C1 counterexample.  The claim says at most one computation job per
instance is ever outstanding, and that a new trailing-window job is never
submitted before the previous one completed.  The submission-level model
refutes it: after an initial full generation completes, two consecutive
append events each pass the `first_gen and not is_genering` guard (the
`add` handler never raises `is_genering`), so two trailing-window jobs are
in flight at once. -/
theorem single_flight_counterexample :
    (runFlight FlightSt.init
      [FAction.reset, FAction.complete, FAction.append, FAction.append]).inFlight
      = [JobKind.addTip, JobKind.addTip] := by
  decide

/-- C1 amended: the part of the policy the code does enforce.  While
`is_genering` is set (a full regeneration or historic load in flight), an
append or mutate-last event submits no job and is dropped, not queued: the
handler only clears `is_current_update` and returns, leaving the job queue
and every other field unchanged.  Single flight is not enforced between two
trailing-window jobs, as the counterexample shows. -/
theorem generating_guard_drops_events (s : FlightSt)
    (hgen : s.is_genering = true) :
    stepFlight s FAction.append = { s with is_current_update := false } ∧
    stepFlight s FAction.update = { s with is_current_update := false } := by
  constructor <;> simp [stepFlight, hgen]

/-- Witness for the amended C1 theorem at a concrete generating state. -/
theorem generating_guard_drops_events_witness :
    stepFlight ⟨true, true, false, true, [JobKind.firstGen]⟩ FAction.append
        = ⟨true, true, false, false, [JobKind.firstGen]⟩ ∧
    stepFlight ⟨true, true, false, true, [JobKind.firstGen]⟩ FAction.update
        = ⟨true, true, false, false, [JobKind.firstGen]⟩ :=
  generating_guard_drops_events ⟨true, true, false, true, [JobKind.firstGen]⟩ rfl

/-! ### Claim C2: full regeneration replaces the series -/

/-- C2: on successful completion of a full-regeneration job the result
becomes the DerivedSeries in its entirety (the new arrays are exactly the
result's columns, so the length equals the fresh result's length and no row
of the previous series survives), `first_gen` becomes true, `is_genering`
clears, and exactly one reset notification is emitted. -/
theorem reset_replaces_series (length : Nat) (kernel : Kernel) (s : RSISys)
    (r : CalcResult)
    (hcalc : RSI.calculate kernel s.candles = some r) :
    (RSIstep length kernel s REvent.reset).1.eng.xdata = r.index ∧
    (RSIstep length kernel s REvent.reset).1.eng.data = r.data ∧
    (RSIstep length kernel s REvent.reset).1.eng.df = r ∧
    (RSIstep length kernel s REvent.reset).1.eng.xdata.length = r.index.length ∧
    (RSIstep length kernel s REvent.reset).1.eng.first_gen = true ∧
    (RSIstep length kernel s REvent.reset).1.eng.is_genering = false ∧
    (RSIstep length kernel s REvent.reset).2 = [Notif.reset] := by
  simp [RSIstep, RSI.eventSlice, applyCandleEvent, Candles.get_df, hcalc,
    RSI.callback_first_gen]

/-- Witness for C2 at a concrete instance: two candles, warm-up one row. -/
theorem reset_replaces_series_witness :
    (RSIstep 1 (rsiKernel 1 id) ⟨⟨[1, 2], [10, 20]⟩, RSIEng.init⟩
        REvent.reset).1.eng.xdata = [2] ∧
    (RSIstep 1 (rsiKernel 1 id) ⟨⟨[1, 2], [10, 20]⟩, RSIEng.init⟩
        REvent.reset).2 = [Notif.reset] := by
  have h := reset_replaces_series 1 (rsiKernel 1 id)
    ⟨⟨[1, 2], [10, 20]⟩, RSIEng.init⟩ ⟨[2], [20]⟩ (by decide)
  exact ⟨h.1, h.2.2.2.2.2.2⟩

/-! ### Claim C9: duplicate tip appends are not rejected -/

/-- The Ready state reached after a first generation over candles 1..3 with
warm-up one row (used by the duplicate-append counterexample below). -/
def readySys : RSISys :=
  ⟨⟨[1, 2, 3], [10, 20, 30]⟩,
   ⟨true, false, false, false, ⟨[2, 3], [20, 30]⟩, [2, 3], [20, 30]⟩⟩

/-- C9 counterexample.  The claim says two append events for the same
upstream row yield at most one new DerivedSeries row, duplicates being
rejected or ignored.  In the code `callback_add` appends the last computed
row unconditionally: after row 4 arrives and is appended, `sig_add_candle`
firing once more for the same row appends index 4 again, yielding two new
rows with a duplicated tip index and a second appended notification. -/
theorem duplicate_tip_counterexample :
    (RSIstep 1 (rsiKernel 1 id)
        (RSIstep 1 (rsiKernel 1 id) readySys (REvent.append 4 40)).1
        REvent.echoAppend).1.eng.xdata = [2, 3, 4, 4] ∧
    (RSIstep 1 (rsiKernel 1 id)
        (RSIstep 1 (rsiKernel 1 id) readySys (REvent.append 4 40)).1
        REvent.echoAppend).2 = [Notif.appended] := by
  decide

/-- C9 amended: no deduplication exists; what does hold is the per-job
bound: one processed append event (with or without a genuinely new candle
row) grows the index array by at most one element, so two append events for
the same upstream row yield at most two new rows, the duplicate being
appended rather than rejected. -/
theorem append_grows_by_at_most_one (length : Nat) (kernel : Kernel)
    (s : RSISys) (i cl : Int) :
    (RSIstep length kernel s (REvent.append i cl)).1.eng.xdata.length
        ≤ s.eng.xdata.length + 1 ∧
    (RSIstep length kernel s REvent.echoAppend).1.eng.xdata.length
        ≤ s.eng.xdata.length + 1 := by
  constructor <;>
  · simp only [RSIstep]
    split
    · split
      · simp
      · rename_i r _
        rw [RSI.callback_add]
        rcases hri : r.index.getLast? with _ | li <;>
          rcases hrd : r.data.getLast? with _ | ld <;> simp
    · simp

/-- Witness for the amended C9 theorem at a concrete Ready state. -/
theorem append_grows_by_at_most_one_witness :
    (RSIstep 1 (rsiKernel 1 id) readySys (REvent.append 4 40)).1.eng.xdata.length
        ≤ readySys.eng.xdata.length + 1 ∧
    (RSIstep 1 (rsiKernel 1 id) readySys REvent.echoAppend).1.eng.xdata.length
        ≤ readySys.eng.xdata.length + 1 :=
  append_grows_by_at_most_one 1 (rsiKernel 1 id) readySys 4 40

/-! ### Claim C3: append merge takes only the final computed row -/

/-- C3: in Ready state, completing an append job appends exactly the final
row of the computed result to the DerivedSeries: every array (the `df`
columns and the `xdata`/`data` arrays) grows by exactly one element, the new
last index equals the new candle's index, and the appended notification
fires exactly once. -/
theorem append_merges_final_row (length : Nat) (hL : 1 ≤ length)
    (kernel : Kernel) (s : RSISys) (i cl : Int)
    (hfg : s.eng.first_gen = true) (hgen : s.eng.is_genering = false)
    (ys : List Int) (hys : ys ≠ [])
    (hk : kernel (tailTake (length * 5) (s.candles.close ++ [cl])) = some ys) :
    (RSIstep length kernel s (REvent.append i cl)).1.eng.xdata
        = s.eng.xdata ++ [i] ∧
    (RSIstep length kernel s (REvent.append i cl)).1.eng.data
        = s.eng.data ++ [ys.getLast hys] ∧
    (RSIstep length kernel s (REvent.append i cl)).1.eng.df.index
        = s.eng.df.index ++ [i] ∧
    (RSIstep length kernel s (REvent.append i cl)).1.eng.df.data
        = s.eng.df.data ++ [ys.getLast hys] ∧
    (RSIstep length kernel s (REvent.append i cl)).1.eng.xdata.length
        = s.eng.xdata.length + 1 ∧
    (RSIstep length kernel s (REvent.append i cl)).1.eng.data.length
        = s.eng.data.length + 1 ∧
    (RSIstep length kernel s (REvent.append i cl)).2 = [Notif.appended] := by
  have hL5 : 1 ≤ length * 5 := by omega
  have hL5ne : length * 5 ≠ 0 := by omega
  have hslice_ne : tailTake (length * 5) (s.candles.idx ++ [i]) ≠ [] :=
    tailTake_ne_nil _ _ hL5 (by simp)
  have hri_ne : tailTake ys.length (tailTake (length * 5) (s.candles.idx ++ [i])) ≠ [] :=
    tailTake_ne_nil _ _ (by
      have := List.length_pos.mpr hys
      omega) hslice_ne
  have hlast : (tailTake ys.length (tailTake (length * 5) (s.candles.idx ++ [i]))).getLast?
      = some i := by
    rw [← suffix_getLast? (tailTake_suffix _ _) hri_ne,
        ← suffix_getLast? (tailTake_suffix _ _) hslice_ne]
    exact List.getLast?_concat _
  have hysl : ys.getLast? = some (ys.getLast hys) :=
    List.getLast?_eq_getLast_of_ne_nil hys
  simp only [RSIstep, RSI.eventSlice, applyCandleEvent, Candles.get_df,
    if_neg hL5ne, RSI.calculate, hk, hfg, hgen, Bool.not_false, Bool.and_self,
    if_true, RSI.callback_add, hlast, hysl]
  simp

/-- Witness for C3: append of candle row 4 to the Ready instance. -/
theorem append_merges_final_row_witness :
    (RSIstep 1 (rsiKernel 1 id) readySys (REvent.append 4 40)).1.eng.xdata
        = readySys.eng.xdata ++ [4] ∧
    (RSIstep 1 (rsiKernel 1 id) readySys (REvent.append 4 40)).2
        = [Notif.appended] := by
  have h := append_merges_final_row 1 (by decide) (rsiKernel 1 id) readySys 4 40
    rfl rfl [20, 30, 40] (by decide) (by decide)
  exact ⟨h.1, h.2.2.2.2.2.2⟩

/-! ### Claim C4: mutate-last merge is a frame-preserving in-place update -/

/-- C4: in Ready state, completing a mutate-last job overwrites only the
final row of every DerivedSeries array with the final row of the computed
result: lengths are unchanged, every element except the last of each array
is unchanged, the new last elements are the computed result's last row, and
the updated notification fires exactly once. -/
theorem update_overwrites_final_row (length : Nat) (hL : 1 ≤ length)
    (kernel : Kernel) (s : RSISys) (cl li : Int)
    (hfg : s.eng.first_gen = true) (hgen : s.eng.is_genering = false)
    (hclose : s.candles.close ≠ []) (hidx : s.candles.idx.getLast? = some li)
    (hxd : s.eng.xdata ≠ []) (hdat : s.eng.data ≠ [])
    (hdfi : s.eng.df.index ≠ [])
    (ys : List Int) (hys : ys ≠ [])
    (hk : kernel (tailTake (length * 5) (replaceLast s.candles.close cl)) = some ys) :
    (RSIstep length kernel s (REvent.mutateLast cl)).1.eng.xdata
        = replaceLast s.eng.xdata li ∧
    (RSIstep length kernel s (REvent.mutateLast cl)).1.eng.data
        = replaceLast s.eng.data (ys.getLast hys) ∧
    (RSIstep length kernel s (REvent.mutateLast cl)).1.eng.xdata.length
        = s.eng.xdata.length ∧
    (RSIstep length kernel s (REvent.mutateLast cl)).1.eng.data.length
        = s.eng.data.length ∧
    (RSIstep length kernel s (REvent.mutateLast cl)).1.eng.xdata.dropLast
        = s.eng.xdata.dropLast ∧
    (RSIstep length kernel s (REvent.mutateLast cl)).1.eng.data.dropLast
        = s.eng.data.dropLast ∧
    (RSIstep length kernel s (REvent.mutateLast cl)).2 = [Notif.updated] := by
  have hL5 : 1 ≤ length * 5 := by omega
  have hL5ne : length * 5 ≠ 0 := by omega
  have hidx_ne : s.candles.idx ≠ [] := by
    intro hc; rw [hc] at hidx; simp at hidx
  have hslice_ne : tailTake (length * 5) s.candles.idx ≠ [] :=
    tailTake_ne_nil _ _ hL5 hidx_ne
  have hri_ne : tailTake ys.length (tailTake (length * 5) s.candles.idx) ≠ [] :=
    tailTake_ne_nil _ _ (by
      have := List.length_pos.mpr hys
      omega) hslice_ne
  have hlast : (tailTake ys.length (tailTake (length * 5) s.candles.idx)).getLast?
      = some li := by
    rw [← suffix_getLast? (tailTake_suffix _ _) hri_ne,
        ← suffix_getLast? (tailTake_suffix _ _) hslice_ne]
    exact hidx
  have hysl : ys.getLast? = some (ys.getLast hys) :=
    List.getLast?_eq_getLast_of_ne_nil hys
  simp only [RSIstep, RSI.eventSlice, applyCandleEvent, Candles.get_df,
    if_neg hclose, if_neg hL5ne, RSI.calculate, hk, hfg, hgen, Bool.not_false,
    Bool.and_self, if_true, RSI.callback_update, hlast, hysl,
    if_neg hdfi, if_neg hxd, if_neg hdat]
  repeat' apply And.intro
  all_goals first
    | trivial
    | exact replaceLast_length _ hxd
    | exact replaceLast_length _ hdat
    | simp [replaceLast]

/-- Witness for C4: mutating the tip close of the Ready instance. -/
theorem update_overwrites_final_row_witness :
    (RSIstep 1 (rsiKernel 1 id) readySys (REvent.mutateLast 99)).1.eng.xdata
        = replaceLast readySys.eng.xdata 3 ∧
    (RSIstep 1 (rsiKernel 1 id) readySys (REvent.mutateLast 99)).2
        = [Notif.updated] := by
  have h := update_overwrites_final_row 1 (by decide) (rsiKernel 1 id) readySys
    99 3 rfl rfl (by decide) (by decide) (by decide) (by decide) (by decide)
    [20, 99] (by decide) (by decide)
  exact ⟨h.1, h.2.2.2.2.2.2⟩

/-! ### Claim C5: historic prepend merge -/

/-- C5: completing a historic-prepend job concatenates the fresh result in
front of the held series per array, emits one historic-loaded notification
carrying the result's row count, and — the candle source having prepended a
strictly older, strictly increasing block, with the held series a suffix of
the candle index — every index in the prepended block is strictly less than
every previously held index, in particular the previous first one. -/
theorem historic_prepend_merge (length : Nat) (kernel : Kernel) (s : RSISys)
    (rows : List (Int × Int)) (r : CalcResult)
    (hsync : s.eng.df.index = s.eng.xdata)
    (hsuf : s.eng.xdata <:+ s.candles.idx)
    (hxd : s.eng.xdata ≠ [])
    (hpair : (rows.map Prod.fst ++ s.candles.idx).Pairwise (· < ·))
    (hcalc : RSI.calculate kernel
      (RSI.eventSlice length (applyCandleEvent s.candles (REvent.historic rows))
        s.eng.df.index.length (REvent.historic rows)) = some r) :
    (RSIstep length kernel s (REvent.historic rows)).1.eng.xdata
        = r.index ++ s.eng.xdata ∧
    (RSIstep length kernel s (REvent.historic rows)).1.eng.data
        = r.data ++ s.eng.data ∧
    (RSIstep length kernel s (REvent.historic rows)).1.eng.df.index
        = r.index ++ s.eng.df.index ∧
    (RSIstep length kernel s (REvent.historic rows)).1.eng.df.data
        = r.data ++ s.eng.df.data ∧
    (RSIstep length kernel s (REvent.historic rows)).2
        = [Notif.historic r.index.length] ∧
    (∀ a ∈ r.index, ∀ b ∈ s.eng.xdata, a < b) := by
  obtain ⟨w, hw⟩ := hsuf
  have hxlen : s.eng.xdata.length ≠ 0 := by
    have := List.length_pos.mpr hxd
    omega
  have hslice_idx :
      (RSI.eventSlice length (applyCandleEvent s.candles (REvent.historic rows))
        s.eng.df.index.length (REvent.historic rows)).idx
      = rows.map Prod.fst ++ w := by
    simp only [RSI.eventSlice, applyCandleEvent, hsync]
    rw [headDropLastRows, if_neg hxlen]
    rw [← hw, ← List.append_assoc]
    have hlen1 : (rows.map Prod.fst ++ w ++ s.eng.xdata).length - s.eng.xdata.length
        = (rows.map Prod.fst ++ w).length := by
      simp
      omega
    rw [hlen1]
    exact List.take_left _ _
  have hri : r.index <:+ rows.map Prod.fst ++ w := by
    rw [RSI.calculate] at hcalc
    rcases hker : kernel (RSI.eventSlice length
        (applyCandleEvent s.candles (REvent.historic rows))
        s.eng.df.index.length (REvent.historic rows)).close with _ | y
    · rw [hker] at hcalc
      simp at hcalc
    · rw [hker] at hcalc
      simp only [Option.some.injEq] at hcalc
      rw [← hcalc, ← hslice_idx]
      exact tailTake_suffix _ _
  have hord : ∀ a ∈ rows.map Prod.fst ++ w, ∀ b ∈ s.eng.xdata, a < b := by
    have hpair2 : ((rows.map Prod.fst ++ w) ++ s.eng.xdata).Pairwise (· < ·) := by
      rw [List.append_assoc, hw]
      exact hpair
    exact (List.pairwise_append.mp hpair2).2.2
  refine ⟨?_, ?_, ?_, ?_, ?_,
    fun a ha b hb => hord a (hri.sublist.subset ha) b hb⟩ <;>
  · simp only [RSIstep, hcalc, RSI.callback_gen_historic_data]
    try simp

/-- Witness for C5: prepend two older candles to the Ready instance. -/
theorem historic_prepend_merge_witness :
    (RSIstep 1 (rsiKernel 1 id) readySys
        (REvent.historic [(-1, 5), (0, 6)])).1.eng.xdata
      = [0, 1] ++ readySys.eng.xdata ∧
    (RSIstep 1 (rsiKernel 1 id) readySys
        (REvent.historic [(-1, 5), (0, 6)])).2 = [Notif.historic 2] := by
  have h := historic_prepend_merge 1 (rsiKernel 1 id) readySys
    [(-1, 5), (0, 6)] ⟨[0, 1], [6, 10]⟩ rfl ⟨[1], rfl⟩ (by decide) (by decide)
    (by decide)
  exact ⟨h.1, h.2.2.2.2.1⟩

/-! ### Claim C8: insufficient data is a no-op -/

/-- C8: when the input slice handed to the calculation function is shorter
than its warm-up window (`length + 1` rows for rsi), the rsi pipeline yields
an absent result, the job dies before the merge, and the DerivedSeries
arrays are left exactly as they were with no notification emitted — in
particular the absent result is never merged as a reset. -/
theorem insufficient_input_is_noop (length : Nat) (k : List Int → List Int)
    (s : RSISys) (ev : REvent)
    (hshort : (RSI.eventSlice length (applyCandleEvent s.candles ev)
        s.eng.df.index.length ev).close.length < length + 1) :
    (RSIstep length (rsiKernel length k) s ev).1.eng.xdata = s.eng.xdata ∧
    (RSIstep length (rsiKernel length k) s ev).1.eng.data = s.eng.data ∧
    (RSIstep length (rsiKernel length k) s ev).2 = [] := by
  have hif : ¬ (length + 1 ≤ (RSI.eventSlice length (applyCandleEvent s.candles ev)
      s.eng.df.index.length ev).close.length) := by omega
  have hnone : RSI.calculate (rsiKernel length k)
      (RSI.eventSlice length (applyCandleEvent s.candles ev)
        s.eng.df.index.length ev) = none := by
    simp [RSI.calculate, rsiKernel, hif]
  cases ev <;> simp only [RSIstep, hnone] <;> (try split) <;> simp

/-- Witness for C8: a reset over a one-candle table with warm-up two rows
leaves the (empty) series untouched and emits nothing. -/
theorem insufficient_input_is_noop_witness :
    (RSIstep 2 (rsiKernel 2 id) ⟨⟨[7], [70]⟩, RSIEng.init⟩
        REvent.reset).1.eng.xdata = RSIEng.init.xdata ∧
    (RSIstep 2 (rsiKernel 2 id) ⟨⟨[7], [70]⟩, RSIEng.init⟩
        REvent.reset).2 = [] := by
  have h := insufficient_input_is_noop 2 id ⟨⟨[7], [70]⟩, RSIEng.init⟩
    REvent.reset (by decide)
  exact ⟨h.1, h.2.2⟩

/-! ### Claim C10: query surface totality -/

/-- C10: `get_data` is total and in-bounds by construction.  On an empty
series it returns a pair of empty lists for all slice arguments; in every
case each returned list is a contiguous part of the corresponding array
(so no access is out of bounds), and equal-length arrays yield equal-length
results. -/
theorem get_data_safe (xdata data : List Int) (start stop : Int) :
    (xdata = [] → RSI.get_data xdata data start stop = ([], [])) ∧
    (RSI.get_data xdata data start stop).1 <:+: xdata ∧
    (RSI.get_data xdata data start stop).2 <:+: data ∧
    (data.length = xdata.length →
      (RSI.get_data xdata data start stop).2.length
        = (RSI.get_data xdata data start stop).1.length) := by
  rw [RSI.get_data]
  split_ifs with h1 h2 h3 h4
  · exact ⟨fun _ => rfl, ⟨[], xdata, by simp⟩, ⟨[], data, by simp⟩, fun _ => rfl⟩
  · refine ⟨fun hx => absurd (by simp [hx]) h1, List.infix_refl _,
      List.infix_refl _, fun hl => hl⟩
  · refine ⟨fun hx => absurd (by simp [hx]) h1, ?_, ?_, ?_⟩
    · exact ⟨[], xdata.drop (pyBound xdata.length stop), by
        simp [pySliceTo]⟩
    · exact ⟨[], data.drop (pyBound data.length stop), by
        simp [pySliceTo]⟩
    · intro hl
      simp [pySliceTo, hl]
  · refine ⟨fun hx => absurd (by simp [hx]) h1, ?_, ?_, ?_⟩
    · exact ⟨xdata.take (pyBound xdata.length start), [], by
        simp [pySliceFrom]⟩
    · exact ⟨data.take (pyBound data.length start), [], by
        simp [pySliceFrom]⟩
    · intro hl
      simp [pySliceFrom, hl]
  · refine ⟨fun hx => absurd (by simp [hx]) h1, ?_, ?_, ?_⟩
    · exact ⟨(xdata.take (pyBound xdata.length stop)).take
          (pyBound xdata.length start),
        xdata.drop (pyBound xdata.length stop), by
          simp [pySlice]⟩
    · exact ⟨(data.take (pyBound data.length stop)).take
          (pyBound data.length start),
        data.drop (pyBound data.length stop), by
          simp [pySlice]⟩
    · intro hl
      simp [pySlice, hl]

/-- Witness for C10 at a concrete series and negative slice bounds. -/
theorem get_data_safe_witness :
    (([] : List Int) = [] → RSI.get_data [] [9] 0 0 = ([], [])) ∧
    (RSI.get_data [] [9] 0 0).1 <:+: [] ∧
    (RSI.get_data [] [9] 0 0).2 <:+: [9] ∧
    (([9] : List Int).length = ([] : List Int).length →
      (RSI.get_data [] [9] 0 0).2.length = (RSI.get_data [] [9] 0 0).1.length) :=
  get_data_safe [] [9] 0 0

/-! ### Claim C7: channel length parity -/

/-- All channel arrays of the MACD DerivedSeries have the same length as the
index array. -/
def MACD.parity (e : MACDEng) : Prop :=
  e.macd_data.length = e.xdata.length ∧
  e.histogram.length = e.xdata.length ∧
  e.signalma.length = e.xdata.length

theorem pdTail_length_of_nonneg {k : Int} (xs : List α) (h0 : 0 ≤ k)
    (hle : k ≤ (xs.length : Int)) : (pdTail k xs).length = k.toNat := by
  rw [pdTail, if_pos h0, List.length_drop]
  omega

/-- The four columns of a successful `MACD.calculate` result all have the
same length: the min-truncation row count. -/
theorem MACD.calculate_parity (fast slow signal : Nat) (hsig : 1 ≤ signal)
    (km kh ks : List Int → List Int) (c : Candles)
    (hlen : c.idx.length = c.close.length) (r : MacdResult)
    (hcalc : MACD.calculate fast slow signal km kh ks c = some r) :
    r.macd.length = r.index.length ∧
    r.histogram.length = r.index.length ∧
    r.signalma.length = r.index.length := by
  rw [MACD.calculate] at hcalc
  by_cases hg : max fast slow + signal ≤ c.close.length + 1
  · rw [if_pos hg] at hcalc
    simp only [Option.some.injEq] at hcalc
    set len : Int :=
      min (min ((kh c.close).length : Int) ((km c.close).length : Int))
          (min ((ks c.close).length : Int) ((c.close.length : Int) - (slow : Int)))
      with hlendef
    have hslow : slow ≤ c.close.length := by
      have h1 : slow ≤ max fast slow := le_max_right _ _
      omega
    have h0 : 0 ≤ len := by
      rw [hlendef]
      simp
      omega
    have hm : len ≤ ((km c.close).length : Int) := by rw [hlendef]; simp
    have hh : len ≤ ((kh c.close).length : Int) := by rw [hlendef]; simp
    have hs : len ≤ ((ks c.close).length : Int) := by rw [hlendef]; simp
    have hi : len ≤ (c.idx.length : Int) := by
      rw [hlendef, hlen]
      have : min ((ks c.close).length : Int) ((c.close.length : Int) - (slow : Int))
          ≤ (c.close.length : Int) := by
        have := min_le_right ((ks c.close).length : Int)
          ((c.close.length : Int) - (slow : Int))
        omega
      exact le_trans (min_le_right _ _) this
    rw [← hcalc]
    simp only
    rw [pdTail_length_of_nonneg _ h0 hi, pdTail_length_of_nonneg _ h0 hm,
      pdTail_length_of_nonneg _ h0 hh, pdTail_length_of_nonneg _ h0 hs]
    exact ⟨rfl, rfl, rfl⟩
  · rw [if_neg hg] at hcalc
    exact absurd hcalc (by simp)

/-- `MACD.mergeAdd` preserves channel parity: either all four arrays grow by
one row or (on an empty recomputed channel) nothing changes. -/
theorem MACD.mergeAdd_parity (e : MACDEng) (i : Int) (m h sg : List Int)
    (hpar : MACD.parity e) : MACD.parity (MACD.mergeAdd e i m h sg).1 := by
  obtain ⟨h1, h2, h3⟩ := hpar
  rcases hm : m.getLast? with _ | vm <;>
  rcases hh : h.getLast? with _ | vh <;>
  rcases hs : sg.getLast? with _ | vs <;>
  simp only [MACD.mergeAdd, hm, hh, hs] <;>
  simp [MACD.parity, h1, h2, h3]

/-- `MACD.mergeUpdate` preserves channel parity: every abort point and the
full update leave all four array lengths unchanged. -/
theorem MACD.mergeUpdate_parity (e : MACDEng) (i : Int) (m h sg : List Int)
    (hpar : MACD.parity e) : MACD.parity (MACD.mergeUpdate e i m h sg).1 := by
  obtain ⟨h1, h2, h3⟩ := hpar
  rcases hm : m.getLast? with _ | vm <;>
  rcases hh : h.getLast? with _ | vh <;>
  rcases hs : sg.getLast? with _ | vs <;>
  simp only [MACD.mergeUpdate, hm, hh, hs] <;>
  try exact ⟨h1, h2, h3⟩
  split_ifs with hdf hx hmc hhg hsg2
  · exact ⟨h1, h2, h3⟩
  · exact ⟨h1, h2, h3⟩
  · simp only [MACD.parity]
    rw [replaceLast_length i hx]
    exact ⟨h1, h2, h3⟩
  · simp only [MACD.parity]
    rw [replaceLast_length i hx, replaceLast_length vm hmc]
    exact ⟨h1, h2, h3⟩
  · simp only [MACD.parity]
    rw [replaceLast_length i hx, replaceLast_length vm hmc,
      replaceLast_length vh hhg]
    exact ⟨h1, h2, h3⟩
  · simp only [MACD.parity]
    rw [replaceLast_length i hx, replaceLast_length vm hmc,
      replaceLast_length vh hhg, replaceLast_length vs hsg2]
    exact ⟨h1, h2, h3⟩

/-- C7: every operation of the multi-channel MACD engine — full
regeneration, historic prepend, append, mutate-last, and the degenerate
repeated-tip append — preserves the invariant that the macd, histogram and
signal arrays all have the same length as the index array (given
`signal_period` at least one and an index/close-aligned candle table). -/
theorem channel_parity_preserved (fast slow signal : Nat) (hsig : 1 ≤ signal)
    (km kh ks : List Int → List Int) (s : MACDSys) (ev : REvent)
    (hlen : s.candles.idx.length = s.candles.close.length)
    (hpar : MACD.parity s.eng) :
    MACD.parity (MACDstep fast slow signal km kh ks s ev).1.eng := by
  have hlen' : (applyCandleEvent s.candles ev).idx.length
      = (applyCandleEvent s.candles ev).close.length := by
    rcases ev with _ | ⟨i, cl⟩ | _ | cl | rows <;>
      simp [applyCandleEvent, hlen]
    split_ifs with hc
    · exact hlen
    · simp [replaceLast]
      have := List.length_pos.mpr hc
      omega
  rcases ev with _ | ⟨i, cl⟩ | _ | cl | rows
  · -- reset
    simp only [MACDstep]
    rcases hc : MACD.calculate fast slow signal km kh ks
        ((applyCandleEvent s.candles REvent.reset).get_df 0) with _ | r
    · simpa [MACD.parity] using hpar
    · have hr := MACD.calculate_parity fast slow signal hsig km kh ks _
        (by simpa [Candles.get_df] using hlen') r hc
      simp [MACD.callback_first_gen, MACD.parity, hr.1, hr.2.1, hr.2.2]
  · -- append
    simp only [MACDstep]
    split
    · rcases hc : MACD.add_update_calculate fast slow signal km kh ks
          ((applyCandleEvent s.candles (REvent.append i cl)).get_df (slow * 5))
          with _ | t
      · simpa [MACD.parity] using hpar
      · exact MACD.mergeAdd_parity _ i t.1 t.2.1 t.2.2
          (by simpa [MACD.parity] using hpar)
    · simpa [MACD.parity] using hpar
  · -- echoAppend
    simp only [MACDstep]
    split
    · rcases hc : MACD.add_update_calculate fast slow signal km kh ks
          ((applyCandleEvent s.candles REvent.echoAppend).get_df (slow * 5))
          with _ | t
      · simpa [MACD.parity] using hpar
      · rcases hi : (applyCandleEvent s.candles REvent.echoAppend).idx.getLast?
            with _ | i
        · simpa [MACD.parity] using hpar
        · exact MACD.mergeAdd_parity _ i t.1 t.2.1 t.2.2
            (by simpa [MACD.parity] using hpar)
    · simpa [MACD.parity] using hpar
  · -- mutateLast
    simp only [MACDstep]
    split
    · rcases hc : MACD.add_update_calculate fast slow signal km kh ks
          ((applyCandleEvent s.candles (REvent.mutateLast cl)).get_df (slow * 5))
          with _ | t
      · simpa [MACD.parity] using hpar
      · rcases hi : (applyCandleEvent s.candles (REvent.mutateLast cl)).idx.getLast?
            with _ | i
        · simpa [MACD.parity] using hpar
        · exact MACD.mergeUpdate_parity _ i t.1 t.2.1 t.2.2
            (by simpa [MACD.parity] using hpar)
    · simpa [MACD.parity] using hpar
  · -- historic
    simp only [MACDstep]
    rcases hc : MACD.calculate fast slow signal km kh ks
        (⟨headDropLastRows s.eng.df.index.length
            (applyCandleEvent s.candles (REvent.historic rows)).idx,
          headDropLastRows s.eng.df.index.length
            (applyCandleEvent s.candles (REvent.historic rows)).close⟩ : Candles)
        with _ | r
    · simpa [MACD.parity] using hpar
    · have hslice : (⟨headDropLastRows s.eng.df.index.length
            (applyCandleEvent s.candles (REvent.historic rows)).idx,
          headDropLastRows s.eng.df.index.length
            (applyCandleEvent s.candles (REvent.historic rows)).close⟩ : Candles).idx.length
          = (⟨headDropLastRows s.eng.df.index.length
            (applyCandleEvent s.candles (REvent.historic rows)).idx,
          headDropLastRows s.eng.df.index.length
            (applyCandleEvent s.candles (REvent.historic rows)).close⟩ : Candles).close.length := by
        simp only [headDropLastRows]
        split_ifs
        · rfl
        · rw [List.length_take, List.length_take, hlen']
      have hr := MACD.calculate_parity fast slow signal hsig km kh ks _
        hslice r hc
      obtain ⟨p1, p2, p3⟩ := hpar
      simp [MACD.callback_gen_historic_data, MACD.parity, hr.1, hr.2.1, hr.2.2,
        p1, p2, p3]

/-- Witness for C7: one append step on a concrete Ready MACD instance. -/
theorem channel_parity_preserved_witness :
    MACD.parity (MACDstep 1 2 1 id id id
      ⟨⟨[1, 2, 3], [10, 20, 30]⟩,
       ⟨true, false, false, false, ⟨[3], [5], [6], [7]⟩, [3], [5], [6], [7]⟩⟩
      (REvent.append 4 40)).1.eng :=
  channel_parity_preserved 1 2 1 (by decide) id id id
    ⟨⟨[1, 2, 3], [10, 20, 30]⟩,
     ⟨true, false, false, false, ⟨[3], [5], [6], [7]⟩, [3], [5], [6], [7]⟩⟩
    (REvent.append 4 40) rfl ⟨rfl, rfl, rfl⟩

/-! ### Claim C6: the monotonic index invariant

The candle source contract behind the claim's hypothesis: an append event
carries a row with an index strictly above everything held, a mutate-last
event rewrites only the close of the tip, and a historic-prepend event
prepends a non-empty block keeping the whole index column strictly
increasing.  A repeated tip notification with no candle mutation
(`echoAppend`) is not one of the four event kinds of the contract. -/

/-- Well-formedness of one upstream event against the current candle table. -/
def wfEvent (c : Candles) : REvent → Prop
  | .reset => True
  | .append i _ => ∀ j ∈ c.idx, j < i
  | .echoAppend => False
  | .mutateLast _ => True
  | .historic rows =>
      rows ≠ [] ∧ (rows.map Prod.fst ++ c.idx).Pairwise (· < ·)

instance (c : Candles) (ev : REvent) : Decidable (wfEvent c ev) := by
  cases ev <;> unfold wfEvent <;> infer_instance

/-- Well-formedness of a whole trace, each event judged against the candle
table the previous events produced. -/
def wfTrace (length : Nat) (kernel : Kernel) : RSISys → List REvent → Prop
  | _, [] => True
  | s, ev :: rest =>
      wfEvent s.candles ev ∧
      wfTrace length kernel (RSIstep length kernel s ev).1 rest

instance wfTraceDecidable (length : Nat) (kernel : Kernel) :
    (s : RSISys) → (tr : List REvent) → Decidable (wfTrace length kernel s tr)
  | _, [] => Decidable.isTrue trivial
  | s, ev :: rest =>
      have : Decidable (wfTrace length kernel (RSIstep length kernel s ev).1 rest) :=
        wfTraceDecidable length kernel _ rest
      instDecidableAnd

/-- The reachability invariant of one engine instance.  Either the instance
is stuck generating (initial state, or a failed regeneration): the frame is
empty, `is_genering` is set and the stale arrays are still sorted; or it is
live: frame and index array agree, the index array is a non-empty suffix of
the candle index column, the flags are Ready, and the candle table is
exactly one warm-up window longer than the series. -/
def RSIInv (length : Nat) (s : RSISys) : Prop :=
  s.candles.idx.Pairwise (· < ·) ∧
  s.candles.idx.length = s.candles.close.length ∧
  ((s.eng.df.index = [] ∧ s.eng.is_genering = true ∧
      s.eng.xdata.Pairwise (· < ·)) ∨
   (s.eng.df.index = s.eng.xdata ∧ s.eng.xdata <:+ s.candles.idx ∧
      s.eng.xdata ≠ [] ∧ s.eng.first_gen = true ∧ s.eng.is_genering = false ∧
      s.candles.idx.length = s.eng.xdata.length + length))

/-- Monotonicity of the index array is a consequence of the invariant. -/
theorem RSIInv.pairwise_xdata {length : Nat} {s : RSISys}
    (h : RSIInv length s) : s.eng.xdata.Pairwise (· < ·) := by
  obtain ⟨hcp, -, hd⟩ := h
  rcases hd with ⟨-, -, hp⟩ | ⟨-, hsuf, -⟩
  · exact hp
  · exact hcp.sublist hsuf.sublist

section InvariantProof

variable (length : Nat) (k : List Int → List Int)

/-- A successful run of `RSI.calculate` with the rsi kernel: both result
columns are the warm-up-adjusted tails (the pointwise core produces one
value per input row). -/
theorem calc_eq (hk : ∀ xs, (k xs).length = xs.length) (c : Candles)
    (h : length + 1 ≤ c.close.length) :
    RSI.calculate (rsiKernel length k) c
      = some ⟨tailTake (c.close.length - length) c.idx,
              tailTake (c.close.length - length) (k c.close)⟩ := by
  have hy : (tailTake (c.close.length - length) (k c.close)).length
      = c.close.length - length := by
    rw [tailTake_length, hk]
    omega
  simp [RSI.calculate, rsiKernel, if_pos h, hy]

/-- A too-short input slice makes the calculation absent. -/
theorem calc_none (c : Candles) (h : c.close.length < length + 1) :
    RSI.calculate (rsiKernel length k) c = none := by
  have hif : ¬ (length + 1 ≤ c.close.length) := by omega
  simp [RSI.calculate, rsiKernel, hif]

theorem slice_reset (p : Nat) (c : Candles) :
    RSI.eventSlice length c p REvent.reset = c := by
  simp [RSI.eventSlice, Candles.get_df]

/-- Preservation of the invariant by a full-regeneration event. -/
theorem inv_step_reset (hk : ∀ xs, (k xs).length = xs.length)
    (s : RSISys) (hinv : RSIInv length s) :
    RSIInv length (RSIstep length (rsiKernel length k) s REvent.reset).1 := by
  obtain ⟨hcp, hclen, hdisj⟩ := hinv
  have hstale : s.eng.xdata.Pairwise (· < ·) := by
    rcases hdisj with ⟨-, -, hp⟩ | ⟨-, hsuf, -⟩
    · exact hp
    · exact hcp.sublist hsuf.sublist
  by_cases hn : length + 1 ≤ s.candles.close.length
  · have hc := calc_eq length k hk s.candles hn
    simp only [RSIstep, slice_reset, applyCandleEvent, hc,
      RSI.callback_first_gen]
    unfold RSIInv
    refine ⟨hcp, hclen, Or.inr ⟨rfl, tailTake_suffix _ _, ?_, rfl, rfl, ?_⟩⟩
    · apply tailTake_ne_nil
      · omega
      · intro hcontra
        rw [hcontra] at hclen
        simp at hclen
        omega
    · show s.candles.idx.length
        = (tailTake (s.candles.close.length - length) s.candles.idx).length + length
      rw [tailTake_length]
      omega
  · have hc := calc_none length k s.candles (by omega)
    simp only [RSIstep, slice_reset, applyCandleEvent, hc]
    exact ⟨hcp, hclen, Or.inl ⟨rfl, rfl, hstale⟩⟩

/-- Preservation of the invariant by an append event carrying a strictly
newer candle row. -/
theorem inv_step_append (hL : 1 ≤ length)
    (hk : ∀ xs, (k xs).length = xs.length)
    (s : RSISys) (i cl : Int) (hinv : RSIInv length s)
    (hwf : ∀ j ∈ s.candles.idx, j < i) :
    RSIInv length (RSIstep length (rsiKernel length k) s (REvent.append i cl)).1 := by
  obtain ⟨hcp, hclen, hdisj⟩ := hinv
  have hcp' : (s.candles.idx ++ [i]).Pairwise (· < ·) := by
    rw [List.pairwise_append]
    refine ⟨hcp, List.pairwise_singleton _ _, ?_⟩
    intro a ha b hb
    simp only [List.mem_singleton] at hb
    rw [hb]
    exact hwf a ha
  have hclen' : (s.candles.idx ++ [i]).length = (s.candles.close ++ [cl]).length := by
    simp [hclen]
  rcases hdisj with ⟨hdf, hgen, hxp⟩ | ⟨hdfx, hsuf, hxne, hfg, hgenf, hcnt⟩
  · simp only [RSIstep, applyCandleEvent, hgen, Bool.not_true, Bool.and_false,
      Bool.false_eq_true, if_false]
    exact ⟨hcp', hclen', Or.inl ⟨hdf, rfl, hxp⟩⟩
  · have hxlen : 1 ≤ s.eng.xdata.length := List.length_pos.mpr hxne
    have hL5 : ¬ (length * 5 = 0) := by omega
    have hslice : RSI.eventSlice length
        (⟨s.candles.idx ++ [i], s.candles.close ++ [cl]⟩ : Candles)
        s.eng.df.index.length (REvent.append i cl)
        = ⟨tailTake (length * 5) (s.candles.idx ++ [i]),
           tailTake (length * 5) (s.candles.close ++ [cl])⟩ := by
      simp [RSI.eventSlice, Candles.get_df, hL5]
    have hge : length + 1 ≤ (tailTake (length * 5) (s.candles.close ++ [cl])).length := by
      rw [tailTake_length, List.length_append]
      omega
    have hc := calc_eq length k hk
      (⟨tailTake (length * 5) (s.candles.idx ++ [i]),
        tailTake (length * 5) (s.candles.close ++ [cl])⟩ : Candles) hge
    have hsl_ne : tailTake (length * 5) (s.candles.idx ++ [i]) ≠ [] :=
      tailTake_ne_nil _ _ (by omega) (by simp)
    have hri_ne : tailTake
        ((tailTake (length * 5) (s.candles.close ++ [cl])).length - length)
        (tailTake (length * 5) (s.candles.idx ++ [i])) ≠ [] :=
      tailTake_ne_nil _ _ (by omega) hsl_ne
    have hlast : (tailTake
        ((tailTake (length * 5) (s.candles.close ++ [cl])).length - length)
        (tailTake (length * 5) (s.candles.idx ++ [i]))).getLast? = some i := by
      rw [← suffix_getLast? (tailTake_suffix _ _) hri_ne,
          ← suffix_getLast? (tailTake_suffix _ _) hsl_ne]
      exact List.getLast?_concat _
    have hksc : (k (tailTake (length * 5) (s.candles.close ++ [cl]))).length
        = (tailTake (length * 5) (s.candles.close ++ [cl])).length := hk _
    have hrd_ne : tailTake
        ((tailTake (length * 5) (s.candles.close ++ [cl])).length - length)
        (k (tailTake (length * 5) (s.candles.close ++ [cl]))) ≠ [] := by
      apply tailTake_ne_nil _ _ (by omega)
      intro hcontra
      rw [hcontra] at hksc
      simp at hksc
      omega
    rcases hld : (tailTake
        ((tailTake (length * 5) (s.candles.close ++ [cl])).length - length)
        (k (tailTake (length * 5) (s.candles.close ++ [cl])))).getLast? with _ | ld
    · exact absurd (List.getLast?_eq_none_iff.mp hld) hrd_ne
    · obtain ⟨w, hw⟩ := hsuf
      simp only [RSIstep, applyCandleEvent, hslice, hfg, hgenf, Bool.not_false,
        Bool.and_self, if_true, hc, RSI.callback_add, hlast, hld]
      refine ⟨hcp', hclen', Or.inr ⟨?_, ⟨w, ?_⟩, ?_, ?_, ?_, ?_⟩⟩
      · show s.eng.df.index ++ [i] = s.eng.xdata ++ [i]
        rw [hdfx]
      · show w ++ (s.eng.xdata ++ [i]) = s.candles.idx ++ [i]
        rw [← List.append_assoc, hw]
      · simp
      · rfl
      · rfl
      · show (s.candles.idx ++ [i]).length = (s.eng.xdata ++ [i]).length + length
        simp only [List.length_append, List.length_cons, List.length_nil]
        omega

/-- Preservation of the invariant by a mutate-last event. -/
theorem inv_step_mutate (hL : 1 ≤ length)
    (hk : ∀ xs, (k xs).length = xs.length)
    (s : RSISys) (cl : Int) (hinv : RSIInv length s) :
    RSIInv length (RSIstep length (rsiKernel length k) s (REvent.mutateLast cl)).1 := by
  obtain ⟨hcp, hclen, hdisj⟩ := hinv
  rcases hdisj with ⟨hdf, hgen, hxp⟩ | ⟨hdfx, hsuf, hxne, hfg, hgenf, hcnt⟩
  · simp only [RSIstep, applyCandleEvent, hgen, Bool.not_true, Bool.and_false,
      Bool.false_eq_true, if_false]
    split_ifs with hce
    · exact ⟨hcp, hclen, Or.inl ⟨hdf, rfl, hxp⟩⟩
    · refine ⟨hcp, ?_, Or.inl ⟨hdf, rfl, hxp⟩⟩
      show s.candles.idx.length = (replaceLast s.candles.close cl).length
      rw [replaceLast_length cl hce]
      exact hclen
  · have hxlen : 1 ≤ s.eng.xdata.length := List.length_pos.mpr hxne
    have hce : ¬ (s.candles.close = []) := by
      intro hcontra
      rw [hcontra] at hclen
      simp only [List.length_nil] at hclen
      omega
    have hL5 : ¬ (length * 5 = 0) := by omega
    have hclen2 : (replaceLast s.candles.close cl).length = s.candles.close.length :=
      replaceLast_length cl hce
    have hslice : RSI.eventSlice length
        (⟨s.candles.idx, replaceLast s.candles.close cl⟩ : Candles)
        s.eng.df.index.length (REvent.mutateLast cl)
        = ⟨tailTake (length * 5) s.candles.idx,
           tailTake (length * 5) (replaceLast s.candles.close cl)⟩ := by
      simp [RSI.eventSlice, Candles.get_df, hL5]
    have hge : length + 1
        ≤ (tailTake (length * 5) (replaceLast s.candles.close cl)).length := by
      rw [tailTake_length, hclen2]
      omega
    have hc := calc_eq length k hk
      (⟨tailTake (length * 5) s.candles.idx,
        tailTake (length * 5) (replaceLast s.candles.close cl)⟩ : Candles) hge
    have hidx_ne : s.candles.idx ≠ [] := by
      intro hcontra
      rw [hcontra] at hcnt
      simp only [List.length_nil] at hcnt
      omega
    have hsl_ne : tailTake (length * 5) s.candles.idx ≠ [] :=
      tailTake_ne_nil _ _ (by omega) hidx_ne
    have hri_ne : tailTake
        ((tailTake (length * 5) (replaceLast s.candles.close cl)).length - length)
        (tailTake (length * 5) s.candles.idx) ≠ [] :=
      tailTake_ne_nil _ _ (by omega) hsl_ne
    rcases hli : s.candles.idx.getLast? with _ | li
    · exact absurd (List.getLast?_eq_none_iff.mp hli) hidx_ne
    have hlast : (tailTake
        ((tailTake (length * 5) (replaceLast s.candles.close cl)).length - length)
        (tailTake (length * 5) s.candles.idx)).getLast? = some li := by
      rw [← suffix_getLast? (tailTake_suffix _ _) hri_ne,
          ← suffix_getLast? (tailTake_suffix _ _) hsl_ne]
      exact hli
    have hxlast : s.eng.xdata.getLast? = some li := by
      rw [← suffix_getLast? hsuf hxne]
      exact hli
    have hdflast : s.eng.df.index.getLast? = some li := by
      rw [hdfx]
      exact hxlast
    have hksc : (k (tailTake (length * 5) (replaceLast s.candles.close cl))).length
        = (tailTake (length * 5) (replaceLast s.candles.close cl)).length := hk _
    have hrd_ne : tailTake
        ((tailTake (length * 5) (replaceLast s.candles.close cl)).length - length)
        (k (tailTake (length * 5) (replaceLast s.candles.close cl))) ≠ [] := by
      apply tailTake_ne_nil _ _ (by omega)
      intro hcontra
      rw [hcontra] at hksc
      simp at hksc
      omega
    rcases hld : (tailTake
        ((tailTake (length * 5) (replaceLast s.candles.close cl)).length - length)
        (k (tailTake (length * 5) (replaceLast s.candles.close cl)))).getLast?
        with _ | ld
    · exact absurd (List.getLast?_eq_none_iff.mp hld) hrd_ne
    have hdf_ne : ¬ (s.eng.df.index = []) := by
      rw [hdfx]
      exact hxne
    simp only [RSIstep, applyCandleEvent, if_neg hce, hslice, hfg, hgenf,
      Bool.not_false, Bool.and_self, if_true, hc, RSI.callback_update, hlast,
      hld, if_neg hdf_ne, if_neg hxne]
    by_cases hdata : s.eng.data = []
    · rw [if_pos hdata]
      refine ⟨hcp, ?_, Or.inr ⟨?_, ?_, ?_, rfl, rfl, ?_⟩⟩
      · show s.candles.idx.length = (replaceLast s.candles.close cl).length
        rw [hclen2]
        exact hclen
      · show replaceLast s.eng.df.index li = replaceLast s.eng.xdata li
        rw [hdfx]
      · show replaceLast s.eng.xdata li <:+ s.candles.idx
        rw [replaceLast_self hxlast]
        exact hsuf
      · show replaceLast s.eng.xdata li ≠ []
        simp [replaceLast]
      · show s.candles.idx.length = (replaceLast s.eng.xdata li).length + length
        rw [replaceLast_length li hxne]
        exact hcnt
    · rw [if_neg hdata]
      refine ⟨hcp, ?_, Or.inr ⟨?_, ?_, ?_, rfl, rfl, ?_⟩⟩
      · show s.candles.idx.length = (replaceLast s.candles.close cl).length
        rw [hclen2]
        exact hclen
      · show replaceLast s.eng.df.index li = replaceLast s.eng.xdata li
        rw [hdfx]
      · show replaceLast s.eng.xdata li <:+ s.candles.idx
        rw [replaceLast_self hxlast]
        exact hsuf
      · show replaceLast s.eng.xdata li ≠ []
        simp [replaceLast]
      · show s.candles.idx.length = (replaceLast s.eng.xdata li).length + length
        rw [replaceLast_length li hxne]
        exact hcnt

/-- Preservation of the invariant by a historic-prepend event carrying a
non-empty strictly older block. -/
theorem inv_step_historic (hL : 1 ≤ length)
    (hk : ∀ xs, (k xs).length = xs.length)
    (s : RSISys) (rows : List (Int × Int)) (hinv : RSIInv length s)
    (hrne : rows ≠ [])
    (hpair' : (rows.map Prod.fst ++ s.candles.idx).Pairwise (· < ·)) :
    RSIInv length (RSIstep length (rsiKernel length k) s (REvent.historic rows)).1 := by
  obtain ⟨hcp, hclen, hdisj⟩ := hinv
  have hclen' : (rows.map Prod.fst ++ s.candles.idx).length
      = (rows.map Prod.snd ++ s.candles.close).length := by
    simp [hclen]
  rcases hdisj with ⟨hdf, hgen, hxp⟩ | ⟨hdfx, hsuf, hxne, hfg, hgenf, hcnt⟩
  · -- stuck: the frame is empty, head (-0) is the empty slice, nothing merges
    have hp0 : s.eng.df.index.length = 0 := by
      rw [hdf]
      rfl
    have hslice : RSI.eventSlice length
        (⟨rows.map Prod.fst ++ s.candles.idx,
          rows.map Prod.snd ++ s.candles.close⟩ : Candles)
        s.eng.df.index.length (REvent.historic rows)
        = ⟨[], []⟩ := by
      simp [RSI.eventSlice, headDropLastRows, hp0]
    have hc := calc_none length k (⟨[], []⟩ : Candles) (by simp)
    simp only [RSIstep, applyCandleEvent, hslice, hc]
    exact ⟨hpair', hclen', Or.inl ⟨hdf, rfl, hxp⟩⟩
  · have hxlen : 1 ≤ s.eng.xdata.length := List.length_pos.mpr hxne
    have hmlen : 1 ≤ rows.length := List.length_pos.mpr hrne
    obtain ⟨w, hw⟩ := hsuf
    have hplen : s.eng.df.index.length = s.eng.xdata.length := by
      rw [hdfx]
    have hpne : ¬ (s.eng.df.index.length = 0) := by omega
    have hwlen : w.length + s.eng.xdata.length = s.candles.idx.length := by
      rw [← hw]
      simp
    have hsidx : headDropLastRows s.eng.df.index.length
        (rows.map Prod.fst ++ s.candles.idx) = rows.map Prod.fst ++ w := by
      rw [headDropLastRows, if_neg hpne, ← hw, ← List.append_assoc]
      have hlen1 : (rows.map Prod.fst ++ w ++ s.eng.xdata).length
          - s.eng.df.index.length = (rows.map Prod.fst ++ w).length := by
        simp
        omega
      rw [hlen1]
      exact List.take_left _ _
    have hsclen : (headDropLastRows s.eng.df.index.length
        (rows.map Prod.snd ++ s.candles.close)).length
        = rows.length + length := by
      rw [headDropLastRows, if_neg hpne, List.length_take]
      simp
      omega
    have hge : length + 1 ≤ (headDropLastRows s.eng.df.index.length
        (rows.map Prod.snd ++ s.candles.close)).length := by
      rw [hsclen]
      omega
    have hc := calc_eq length k hk
      (⟨headDropLastRows s.eng.df.index.length
          (rows.map Prod.fst ++ s.candles.idx),
        headDropLastRows s.eng.df.index.length
          (rows.map Prod.snd ++ s.candles.close)⟩ : Candles) hge
    obtain ⟨u, hu⟩ := tailTake_suffix
      ((headDropLastRows s.eng.df.index.length
          (rows.map Prod.snd ++ s.candles.close)).length - length)
      (headDropLastRows s.eng.df.index.length
          (rows.map Prod.fst ++ s.candles.idx))
    simp only [RSIstep, applyCandleEvent, RSI.eventSlice, hc,
      RSI.callback_gen_historic_data]
    refine ⟨hpair', hclen', Or.inr ⟨?_, ⟨u, ?_⟩, ?_, rfl, rfl, ?_⟩⟩
    · show tailTake _ _ ++ s.eng.df.index = tailTake _ _ ++ s.eng.xdata
      rw [hdfx]
    · show u ++ (tailTake _ _ ++ s.eng.xdata) = rows.map Prod.fst ++ s.candles.idx
      rw [← List.append_assoc, hu, hsidx, ← hw, List.append_assoc]
    · show tailTake _ _ ++ s.eng.xdata ≠ []
      simp [hxne]
    · show (rows.map Prod.fst ++ s.candles.idx).length
        = (tailTake _ _ ++ s.eng.xdata).length + length
      rw [List.length_append, List.length_append, tailTake_length, hsidx, hsclen]
      simp
      omega

/-- Preservation of the invariant by every well-formed upstream event. -/
theorem inv_step (hL : 1 ≤ length) (hk : ∀ xs, (k xs).length = xs.length)
    (s : RSISys) (ev : REvent) (hinv : RSIInv length s)
    (hwf : wfEvent s.candles ev) :
    RSIInv length (RSIstep length (rsiKernel length k) s ev).1 := by
  rcases ev with _ | ⟨i, cl⟩ | _ | cl | rows
  · exact inv_step_reset length k hk s hinv
  · exact inv_step_append length k hL hk s i cl hinv hwf
  · exact hwf.elim
  · exact inv_step_mutate length k hL hk s cl hinv
  · exact inv_step_historic length k hL hk s rows hinv hwf.1 hwf.2

/-- The invariant holds after any well-formed trace. -/
theorem run_inv (hL : 1 ≤ length) (hk : ∀ xs, (k xs).length = xs.length) :
    ∀ (tr : List REvent) (s : RSISys), RSIInv length s →
      wfTrace length (rsiKernel length k) s tr →
      RSIInv length (runRSI length (rsiKernel length k) s tr)
  | [], _, hinv, _ => hinv
  | ev :: rest, s, hinv, hwf =>
      run_inv hL hk rest _ (inv_step length k hL hk s ev hinv hwf.1) hwf.2

end InvariantProof

/-- C6: starting from a freshly constructed engine bound to a sorted candle
table, after any well-formed sequence of reset, append, mutate-last and
historic-prepend events — each processed to completion, the candle source
keeping its strictly-increasing-index contract — the index array of the
DerivedSeries is strictly increasing. -/
theorem monotonic_index_invariant (length : Nat) (hL : 1 ≤ length)
    (k : List Int → List Int) (hk : ∀ xs, (k xs).length = xs.length)
    (c0 : Candles) (hcp : c0.idx.Pairwise (· < ·))
    (hclen : c0.idx.length = c0.close.length)
    (tr : List REvent)
    (hwf : wfTrace length (rsiKernel length k) ⟨c0, RSIEng.init⟩ tr) :
    ((runRSI length (rsiKernel length k) ⟨c0, RSIEng.init⟩ tr).eng.xdata).Pairwise
      (· < ·) :=
  (run_inv length k hL hk tr ⟨c0, RSIEng.init⟩
    ⟨hcp, hclen, Or.inl ⟨rfl, rfl, List.Pairwise.nil⟩⟩ hwf).pairwise_xdata

/-- Witness for C6: a four-event trace (regenerate, append, historic load,
tip mutation) over a concrete candle table. -/
theorem monotonic_index_invariant_witness :
    ((runRSI 1 (rsiKernel 1 id) ⟨⟨[1, 2], [10, 20]⟩, RSIEng.init⟩
        [REvent.reset, REvent.append 3 30, REvent.historic [(0, 5)],
         REvent.mutateLast 7]).eng.xdata).Pairwise (· < ·) :=
  monotonic_index_invariant 1 (by decide) id (fun _ => rfl)
    ⟨[1, 2], [10, 20]⟩ (by decide) rfl
    [REvent.reset, REvent.append 3 30, REvent.historic [(0, 5)],
     REvent.mutateLast 7] (by decide)

end ATK


